import Mathlib

/-
Verification of the YABA kitchen inventory system against its design
specification.

The repository ships the two web frontends (frontend and frontend-web);
the backend inventory core (BatchLedger, ProductionTransaction,
RevertEngine, WasteRecorder) is described by the specification but its
source is not part of the repository snapshot, so those components are
modelled here directly from the specification text (each such definition
says so in its doc comment).  Quantities and costs are modelled as
integers: the specification mandates fixed-point/decimal arithmetic
internally, and every property checked here only uses addition,
subtraction, multiplication and comparisons, which a fixed-point value
scaled to an integer supports exactly.
-/

namespace Yaba

/-- Item tiers, ordered Raw < Prepped < Dish (data model, spec section 3). -/
inductive ItemType where
  | Raw
  | Prepped
  | Dish
deriving DecidableEq, Repr

/-- Numeric tier of an item type: Raw < Prepped < Dish. -/
def tier : ItemType → Nat
  | .Raw => 0
  | .Prepped => 1
  | .Dish => 2

/-- Catalog item (data model, spec section 3 and frontend types/index.ts). -/
structure Item where
  item_id : Nat
  name : String
  unit : String
  shelf_life_days : Nat
  type : ItemType
deriving DecidableEq, Repr

/-- A stock batch (data model, spec section 3 and frontend types/index.ts).
Expiration dates are abstracted to day numbers; a missing expiration is
represented by none. -/
structure InventoryBatch where
  batch_id : Nat
  item_id : Nat
  quantity_initial : ℤ
  quantity_current : ℤ
  unit_cost : ℤ
  expiration_date : Option Nat
deriving DecidableEq, Repr

/-- Modelled from the spec: the FIFO ordering of BatchLedger, which is not in
the repository snapshot.  Order by expiration date ascending with null
expirations last, ties broken by batch_id ascending. -/
def fifoLe (a b : InventoryBatch) : Prop :=
  match a.expiration_date, b.expiration_date with
  | some x, some y => x < y ∨ (x = y ∧ a.batch_id ≤ b.batch_id)
  | some _, none => True
  | none, some _ => False
  | none, none => a.batch_id ≤ b.batch_id

instance : DecidableRel fifoLe := fun a b => by
  unfold fifoLe
  cases a.expiration_date <;> cases b.expiration_date <;> infer_instance

instance : IsTotal InventoryBatch fifoLe where
  total a b := by
    rcases ha : a.expiration_date with _ | x <;> rcases hb : b.expiration_date with _ | y <;>
      simp only [fifoLe, ha, hb] <;> first | omega | tauto

instance : IsTrans InventoryBatch fifoLe where
  trans a b c hab hbc := by
    rcases ha : a.expiration_date with _ | x <;> rcases hb : b.expiration_date with _ | y <;>
      rcases hc : c.expiration_date with _ | z <;>
      simp only [fifoLe, ha, hb, hc] at hab hbc ⊢ <;> omega

/-- Modelled from the spec: a batch is active while stock remains. -/
def isActive (b : InventoryBatch) : Bool := 0 < b.quantity_current

/-- Modelled from the spec: the active batches of a batch set. -/
def activeBatches (bs : List InventoryBatch) : List InventoryBatch :=
  bs.filter isActive

/-- Modelled from the spec: sort a batch list into FIFO consumption order. -/
def fifoSort (bs : List InventoryBatch) : List InventoryBatch :=
  List.insertionSort fifoLe bs

/-- Total current quantity of a batch list. -/
def totalQty (bs : List InventoryBatch) : ℤ :=
  (bs.map (·.quantity_current)).sum

/-- Modelled from the spec: greedy FIFO allocation over an already sorted
batch list, draining each batch fully before touching the next, stopping
once the needed quantity is covered. -/
def greedyAlloc : List InventoryBatch → ℤ → List (Nat × ℤ)
  | [], _ => []
  | b :: rest, n =>
    if n ≤ 0 then []
    else if n ≤ b.quantity_current then [(b.batch_id, n)]
    else (b.batch_id, b.quantity_current) :: greedyAlloc rest (n - b.quantity_current)

/-- Sum of the amounts of an allocation plan. -/
def planSum (plan : List (Nat × ℤ)) : ℤ := (plan.map (·.2)).sum

instance {ε α : Type} [DecidableEq ε] [DecidableEq α] : DecidableEq (Except ε α)
  | .ok a, .ok b =>
    if h : a = b then .isTrue (by rw [h]) else .isFalse (by simp [h])
  | .ok _, .error _ => .isFalse (by simp)
  | .error _, .ok _ => .isFalse (by simp)
  | .error a, .error b =>
    if h : a = b then .isTrue (by rw [h]) else .isFalse (by simp [h])

/-- The typed failures of the core (spec section 7).  The spec leaves the
failure of restoring beyond quantity_initial and of referencing a missing
batch unnamed; they get their own constructors here. -/
inductive LedgerError where
  | validationError
  | noRecipeDefined
  | insufficientStock (shortfall : ℤ)
  | alreadyReverted
  | downstreamConflict
  | restoreOverflow
  | batchNotFound
deriving DecidableEq, Repr

/-- Modelled from the spec: BatchLedger.selectForDeduction with the FIFO
strategy.  Computes an allocation plan against current state without
mutating anything; fails with InsufficientStock carrying the shortfall when
the total active stock cannot cover the needed quantity. -/
def selectForDeduction (bs : List InventoryBatch) (needed : ℤ) :
    Except LedgerError (List (Nat × ℤ)) :=
  let active := activeBatches bs
  if totalQty active < needed then
    .error (.insufficientStock (needed - totalQty active))
  else
    .ok (greedyAlloc (fifoSort active) needed)

/-- The full drains of a batch list, as allocation entries. -/
def drainEntries (l : List InventoryBatch) : List (Nat × ℤ) :=
  l.map fun b => (b.batch_id, b.quantity_current)

/-- Shape of a FIFO allocation plan over the sorted active list: some first
batches are drained fully, in order, and one further batch supplies the
positive remainder, which does not exceed its current quantity. -/
def GreedyStruct (l : List InventoryBatch) (n : ℤ) (plan : List (Nat × ℤ)) : Prop :=
  ∃ k, ∃ hk : k < l.length,
    plan = drainEntries (l.take k) ++
      [((l.get ⟨k, hk⟩).batch_id, n - totalQty (l.take k))] ∧
    0 < n - totalQty (l.take k) ∧
    n - totalQty (l.take k) ≤ (l.get ⟨k, hk⟩).quantity_current

theorem totalQty_nil : totalQty [] = 0 := rfl

theorem totalQty_cons (b : InventoryBatch) (bs : List InventoryBatch) :
    totalQty (b :: bs) = b.quantity_current + totalQty bs := by
  simp [totalQty]

theorem drainEntries_cons (b : InventoryBatch) (l : List InventoryBatch) :
    drainEntries (b :: l) = (b.batch_id, b.quantity_current) :: drainEntries l := rfl

theorem planSum_drainEntries (l : List InventoryBatch) :
    planSum (drainEntries l) = totalQty l := by
  simp only [planSum, drainEntries, List.map_map]
  rfl

theorem planSum_append (p q : List (Nat × ℤ)) :
    planSum (p ++ q) = planSum p + planSum q := by
  simp [planSum]

theorem greedyAlloc_struct (l : List InventoryBatch) (n : ℤ)
    (h1 : 0 < n) (h2 : n ≤ totalQty l) :
    GreedyStruct l n (greedyAlloc l n) := by
  induction l generalizing n with
  | nil =>
    rw [totalQty_nil] at h2
    omega
  | cons b rest ih =>
    rw [totalQty_cons] at h2
    rw [greedyAlloc]
    rw [if_neg (by omega)]
    by_cases hb : n ≤ b.quantity_current
    · rw [if_pos hb]
      refine ⟨0, by simp, ?_, ?_, ?_⟩
      · simp [drainEntries, totalQty]
      · simpa [totalQty] using h1
      · simpa [totalQty] using hb
    · rw [if_neg hb]
      obtain ⟨k, hk, heq, hpos, hle⟩ := ih (n - b.quantity_current) (by omega) (by omega)
      have harith : n - b.quantity_current - totalQty (rest.take k)
          = n - (b.quantity_current + totalQty (rest.take k)) := by ring
      rw [harith] at heq hpos hle
      refine ⟨k + 1, Nat.succ_lt_succ hk, ?_, ?_, ?_⟩
      · simp only [List.take_succ_cons, drainEntries_cons, totalQty_cons,
          List.cons_append, List.get_eq_getElem, List.getElem_cons_succ]
        simp only [List.get_eq_getElem] at heq
        exact congrArg _ heq
      · simp only [List.take_succ_cons, totalQty_cons]
        exact hpos
      · simp only [List.take_succ_cons, totalQty_cons, List.get_eq_getElem,
          List.getElem_cons_succ]
        simp only [List.get_eq_getElem] at hle
        exact hle

theorem greedyAlloc_sum (l : List InventoryBatch) (n : ℤ)
    (h1 : 0 < n) (h2 : n ≤ totalQty l) :
    planSum (greedyAlloc l n) = n := by
  obtain ⟨k, hk, heq, _, _⟩ := greedyAlloc_struct l n h1 h2
  rw [heq, planSum_append, planSum_drainEntries]
  simp [planSum]

theorem totalQty_perm {l l' : List InventoryBatch} (h : l.Perm l') :
    totalQty l = totalQty l' := by
  unfold totalQty
  exact (h.map _).sum_eq

/-- Adjust the current quantity of the batch with the given id by a delta
(the single mutation primitive every commit and restore goes through). -/
def adjustQty (bs : List InventoryBatch) (bid : Nat) (d : ℤ) : List InventoryBatch :=
  bs.map fun b =>
    if b.batch_id == bid then { b with quantity_current := b.quantity_current + d } else b

/-- Look up a batch by id (first match). -/
def findBatch (bs : List InventoryBatch) (bid : Nat) : Option InventoryBatch :=
  bs.find? (·.batch_id == bid)

/-- Current quantity of the batch with the given id, when present. -/
def qtyOf (bs : List InventoryBatch) (bid : Nat) : Option ℤ :=
  (findBatch bs bid).map (·.quantity_current)

/-- Initial quantity of the batch with the given id, when present. -/
def initOf (bs : List InventoryBatch) (bid : Nat) : Option ℤ :=
  (findBatch bs bid).map (·.quantity_initial)

/-- Modelled from the spec: apply one allocation entry of
BatchLedger.commitDeduction, re-checking at commit time that the quantity
stays non-negative. -/
def commitOne (bs : List InventoryBatch) (e : Nat × ℤ) :
    Except LedgerError (List InventoryBatch) :=
  match findBatch bs e.1 with
  | none => .error .batchNotFound
  | some b =>
    if b.quantity_current - e.2 < 0 then
      .error (.insufficientStock (e.2 - b.quantity_current))
    else .ok (adjustQty bs e.1 (-e.2))

/-- Modelled from the spec: BatchLedger.commitDeduction applies every amount
of a plan; an entry that fails leaves the overall operation failed. -/
def commitDeduction (bs : List InventoryBatch) (plan : List (Nat × ℤ)) :
    Except LedgerError (List InventoryBatch) :=
  plan.foldlM commitOne bs

/-- Modelled from the spec: apply one entry of BatchLedger.restoreDeduction,
failing when the restore would push the batch above its initial quantity. -/
def restoreOne (bs : List InventoryBatch) (e : Nat × ℤ) :
    Except LedgerError (List InventoryBatch) :=
  match findBatch bs e.1 with
  | none => .error .batchNotFound
  | some b =>
    if b.quantity_initial < b.quantity_current + e.2 then .error .restoreOverflow
    else .ok (adjustQty bs e.1 e.2)

/-- Modelled from the spec: BatchLedger.restoreDeduction reverses a prior
commit exactly. -/
def restoreDeduction (bs : List InventoryBatch) (plan : List (Nat × ℤ)) :
    Except LedgerError (List InventoryBatch) :=
  plan.foldlM restoreOne bs

/-- Modelled from the spec: void a batch, forcing quantity_current to zero
(RevertEngine step 3). -/
def voidBatch (bs : List InventoryBatch) (bid : Nat) : List InventoryBatch :=
  bs.map fun b => if b.batch_id == bid then { b with quantity_current := 0 } else b

/-- One ProductionLog row: one row per (output batch, consumed input batch)
pair of a production run (data model, spec section 3). -/
structure ProductionLog where
  run_id : Nat
  output_batch_id : Nat
  input_batch_id : Nat
  quantity_used : ℤ
deriving DecidableEq, Repr

/-- The persistent state of the core: batches table, append-only production
logs, the set of already reverted runs, and the id counters (spec section 6,
persisted layout). -/
structure LedgerState where
  batches : List InventoryBatch
  logs : List ProductionLog
  reverted : List Nat
  nextBatchId : Nat
  nextRunId : Nat
deriving DecidableEq, Repr

/-- Result of a successful production run. -/
structure RunResult where
  run_id : Nat
  output_batch_id : Nat
  quantity_produced : ℤ
deriving DecidableEq, Repr

/-- Batches of one item. -/
def batchesOf (st : LedgerState) (iid : Nat) : List InventoryBatch :=
  st.batches.filter (·.item_id == iid)

/-- Modelled from the spec: ProductionTransaction step 3, building one FIFO
allocation plan per ingredient before any commit.  The recipe is the list of
(input_item_id, quantity_required) pairs; each ingredient needs
quantity_required times the produced quantity. -/
def buildPlans (st : LedgerState) : List (Nat × ℤ) → ℤ →
    Except LedgerError (List (List (Nat × ℤ)))
  | [], _ => .ok []
  | e :: rest, qty => do
    let p ← selectForDeduction (batchesOf st e.1) (e.2 * qty)
    let ps ← buildPlans st rest qty
    .ok (p :: ps)

/-- Cost contribution of one allocation entry: amount times the unit cost of
the batch it draws from. -/
def entryCost (bs : List InventoryBatch) (e : Nat × ℤ) : ℤ :=
  match findBatch bs e.1 with
  | some b => e.2 * b.unit_cost
  | none => 0

/-- Total cost basis of the batches actually drawn by a plan (spec
section 4.3 step 5).  The claims checked here do not depend on the output
batch's unit cost, so the per-unit division of the spec is not modelled;
the total actual cost basis is stored instead. -/
def planCost (bs : List InventoryBatch) (plan : List (Nat × ℤ)) : ℤ :=
  (plan.map (entryCost bs)).sum

/-- The ProductionLog row recording one consumed allocation entry of a run. -/
def mkRunLog (runId outId : Nat) (e : Nat × ℤ) : ProductionLog :=
  { run_id := runId, output_batch_id := outId,
    input_batch_id := e.1, quantity_used := e.2 }

/-- The output batch a production run creates: quantity equals the produced
quantity, expiration is today plus the item's shelf life, the cost basis is
taken from the batches actually drawn (spec section 4.3 steps 5 and 6). -/
def outputBatch (st : LedgerState) (outputItem : Item) (qty : ℤ) (today : Nat)
    (entries : List (Nat × ℤ)) : InventoryBatch :=
  { batch_id := st.nextBatchId, item_id := outputItem.item_id,
    quantity_initial := qty, quantity_current := qty,
    unit_cost := planCost st.batches entries,
    expiration_date := some (today + outputItem.shelf_life_days) }

/-- Modelled from the spec: ProductionTransaction.record, which is not in
the repository snapshot (only its frontend callers are).  Validates the
quantity, resolves the recipe, builds all allocation plans before any
commit, commits them, creates the output batch and appends one
ProductionLog row per consumed input batch. -/
def record (st : LedgerState) (recipe : List (Nat × ℤ)) (outputItem : Item)
    (qty : ℤ) (today : Nat) :
    Except LedgerError (LedgerState × RunResult) :=
  if qty ≤ 0 then .error .validationError
  else if recipe.isEmpty then .error .noRecipeDefined
  else do
    let plans ← buildPlans st recipe qty
    let entries := plans.flatten
    let batches1 ← commitDeduction st.batches entries
    .ok ({ batches := batches1 ++ [outputBatch st outputItem qty today entries],
           logs := st.logs ++ entries.map (mkRunLog st.nextRunId st.nextBatchId),
           reverted := st.reverted,
           nextBatchId := st.nextBatchId + 1,
           nextRunId := st.nextRunId + 1 },
         { run_id := st.nextRunId, output_batch_id := st.nextBatchId,
           quantity_produced := qty })

/-- Modelled from the spec: the body of RevertEngine.revert once the run's
ProductionLog rows are loaded.  Guards DownstreamConflict when any
production log row consumes this run's output batch as an input; otherwise
restores every consumed input batch and voids the output batch. -/
def revertRows (st : LedgerState) (runId : Nat) :
    List ProductionLog → Except LedgerError LedgerState
  | [] => .error .validationError
  | r :: rest =>
    if st.logs.any (fun l => l.input_batch_id == r.output_batch_id) then
      .error .downstreamConflict
    else do
      let restored ← restoreDeduction st.batches
        ((r :: rest).map fun l => (l.input_batch_id, l.quantity_used))
      .ok { st with
            batches := voidBatch restored r.output_batch_id,
            reverted := st.reverted ++ [runId] }

/-- Modelled from the spec: RevertEngine.revert, which is not in the
repository snapshot (only its frontend caller is).  Fails AlreadyReverted
when the run is already marked reverted (idempotency guard); otherwise
loads the run's ProductionLog rows and reverts them. -/
def revert (st : LedgerState) (runId : Nat) : Except LedgerError LedgerState :=
  if st.reverted.contains runId then .error .alreadyReverted
  else revertRows st runId (st.logs.filter (·.run_id == runId))

/-- One waste log row (data model, spec section 3). -/
structure WasteLog where
  batch_id : Nat
  quantity : ℤ
  reason : String
  cost_loss : ℤ
deriving DecidableEq, Repr

/-- Modelled from the spec: WasteRecorder.logWaste, which is not in the
repository snapshot (only its frontend callers are).  Fails with
InsufficientStock when the requested quantity exceeds the batch's current
quantity; on success the deduction is routed through the single commit path
and cost_loss is quantity times the batch's unit cost. -/
def logWaste (st : LedgerState) (bid : Nat) (qty : ℤ) (reason : String) :
    Except LedgerError (LedgerState × WasteLog) :=
  match findBatch st.batches bid with
  | none => .error .batchNotFound
  | some b =>
    if b.quantity_current < qty then
      .error (.insufficientStock (qty - b.quantity_current))
    else do
      let bs ← commitDeduction st.batches [(bid, qty)]
      .ok ({ st with batches := bs },
           { batch_id := bid, quantity := qty, reason := reason,
             cost_loss := qty * b.unit_cost })

/-- Invariants of a ledger state (spec sections 3 and 6): batch ids are
unique and below the id counter, quantities satisfy
0 ≤ quantity_current ≤ quantity_initial, and logged run ids, logged input
batch ids and reverted run ids stay below the respective counters. -/
def WFState (st : LedgerState) : Prop :=
  (st.batches.map (·.batch_id)).Nodup ∧
  (∀ b ∈ st.batches, b.batch_id < st.nextBatchId) ∧
  (∀ b ∈ st.batches, 0 ≤ b.quantity_current ∧ b.quantity_current ≤ b.quantity_initial) ∧
  (∀ l ∈ st.logs, l.input_batch_id < st.nextBatchId) ∧
  (∀ l ∈ st.logs, l.run_id < st.nextRunId) ∧
  (∀ r ∈ st.reverted, r < st.nextRunId)

/-- Well-formed recipe (spec section 3, ItemComposition): distinct input
items, each required in a positive quantity. -/
def WFRecipe (recipe : List (Nat × ℤ)) : Prop :=
  (recipe.map (·.1)).Nodup ∧ ∀ e ∈ recipe, 0 < e.2

instance (st : LedgerState) : Decidable (WFState st) := by
  unfold WFState
  infer_instance

instance (recipe : List (Nat × ℤ)) : Decidable (WFRecipe recipe) := by
  unfold WFRecipe
  infer_instance

theorem findBatch_map (g : InventoryBatch → InventoryBatch)
    (hg : ∀ b, (g b).batch_id = b.batch_id) (bs : List InventoryBatch) (bid : Nat) :
    findBatch (bs.map g) bid = (findBatch bs bid).map g := by
  induction bs with
  | nil => rfl
  | cons b rest ih =>
    unfold findBatch at *
    rw [List.map_cons]
    by_cases h : b.batch_id = bid
    · simp [List.find?_cons, h, hg b]
    · have h1 : ((g b).batch_id == bid) = false := by simp [hg b, h]
      have h2 : (b.batch_id == bid) = false := by simp [h]
      simp only [List.find?_cons, h1, h2]
      exact ih

theorem findBatch_id {bs : List InventoryBatch} {bid : Nat} {b : InventoryBatch}
    (h : findBatch bs bid = some b) : b.batch_id = bid := by
  have := List.find?_some h
  simpa using this

theorem findBatch_mem {bs : List InventoryBatch} {bid : Nat} {b : InventoryBatch}
    (h : findBatch bs bid = some b) : b ∈ bs :=
  List.mem_of_find?_eq_some h

theorem findBatch_isSome_of_mem {bs : List InventoryBatch} {b : InventoryBatch}
    (h : b ∈ bs) : (findBatch bs b.batch_id).isSome := by
  unfold findBatch
  exact List.find?_isSome.mpr ⟨b, h, by simp⟩

theorem findBatch_nodup {bs : List InventoryBatch} {b : InventoryBatch}
    (hnd : (bs.map (·.batch_id)).Nodup) (hb : b ∈ bs) :
    findBatch bs b.batch_id = some b := by
  induction bs with
  | nil => cases hb
  | cons a rest ih =>
    rw [List.map_cons, List.nodup_cons] at hnd
    rcases List.mem_cons.mp hb with rfl | hbr
    · unfold findBatch
      simp [List.find?_cons]
    · have hne : (a.batch_id == b.batch_id) = false := by
        simp only [beq_eq_false_iff_ne, ne_eq]
        intro he
        exact hnd.1 (he ▸ List.mem_map_of_mem (·.batch_id) hbr)
      unfold findBatch at *
      simp only [List.find?_cons, hne]
      exact ih hnd.2 hbr

theorem findBatch_append (l₁ l₂ : List InventoryBatch) (bid : Nat) :
    findBatch (l₁ ++ l₂) bid = (findBatch l₁ bid).or (findBatch l₂ bid) := by
  unfold findBatch
  exact List.find?_append

theorem findBatch_adjust (bs : List InventoryBatch) (bid : Nat) (d : ℤ) (bid' : Nat) :
    findBatch (adjustQty bs bid d) bid' =
      (findBatch bs bid').map fun b =>
        if b.batch_id == bid then { b with quantity_current := b.quantity_current + d }
        else b := by
  unfold adjustQty
  exact findBatch_map _ (fun b => by by_cases h : b.batch_id == bid <;> simp [h]) bs bid'

theorem findBatch_void (bs : List InventoryBatch) (bid : Nat) (bid' : Nat) :
    findBatch (voidBatch bs bid) bid' =
      (findBatch bs bid').map fun b =>
        if b.batch_id == bid then { b with quantity_current := 0 } else b := by
  unfold voidBatch
  exact findBatch_map _ (fun b => by by_cases h : b.batch_id == bid <;> simp [h]) bs bid'

/-- Total amount a plan deducts from (or restores to) one batch id. -/
def sumFor (ps : List (Nat × ℤ)) (bid : Nat) : ℤ :=
  ((ps.filter (·.1 == bid)).map (·.2)).sum

theorem sumFor_nil (bid : Nat) : sumFor [] bid = 0 := rfl

theorem sumFor_cons (e : Nat × ℤ) (ps : List (Nat × ℤ)) (bid : Nat) :
    sumFor (e :: ps) bid = (if e.1 = bid then e.2 else 0) + sumFor ps bid := by
  unfold sumFor
  by_cases h : e.1 = bid
  · rw [List.filter_cons_of_pos (by simpa using h), if_pos h]
    simp
  · rw [List.filter_cons_of_neg (by simpa using h), if_neg h]
    simp

theorem sumFor_nonneg {ps : List (Nat × ℤ)} (h : ∀ e ∈ ps, 0 ≤ e.2) (bid : Nat) :
    0 ≤ sumFor ps bid := by
  induction ps with
  | nil => simp [sumFor_nil]
  | cons e ps ih =>
    rw [sumFor_cons]
    have h1 := h e (List.mem_cons_self _ _)
    have h2 := ih fun x hx => h x (List.mem_cons_of_mem _ hx)
    by_cases he : e.1 = bid <;> simp [he] <;> omega

theorem sumFor_eq_zero {ps : List (Nat × ℤ)} {bid : Nat}
    (h : ∀ e ∈ ps, e.1 ≠ bid) : sumFor ps bid = 0 := by
  induction ps with
  | nil => rfl
  | cons e ps ih =>
    rw [sumFor_cons, if_neg (h e (List.mem_cons_self _ _))]
    rw [ih fun x hx => h x (List.mem_cons_of_mem _ hx)]
    ring

theorem commitOne_ok {bs : List InventoryBatch} {e : Nat × ℤ} {bs' : List InventoryBatch}
    (h : commitOne bs e = .ok bs') : bs' = adjustQty bs e.1 (-e.2) := by
  unfold commitOne at h
  cases hf : findBatch bs e.1 with
  | none => simp [hf] at h
  | some b =>
    simp only [hf] at h
    by_cases hc : b.quantity_current - e.2 < 0
    · rw [if_pos hc] at h
      cases h
    · rw [if_neg hc] at h
      exact (Except.ok.inj h).symm

theorem commitDeduction_findBatch {ps : List (Nat × ℤ)} :
    ∀ {bs bs' : List InventoryBatch}, commitDeduction bs ps = .ok bs' →
    ∀ bid, findBatch bs' bid =
      (findBatch bs bid).map fun b =>
        { b with quantity_current := b.quantity_current - sumFor ps bid } := by
  induction ps with
  | nil =>
    intro bs bs' h bid
    unfold commitDeduction at h
    simp only [List.foldlM_nil] at h
    cases h
    cases hf : findBatch bs bid <;> simp [sumFor_nil]
  | cons e ps ih =>
    intro bs bs' h bid
    unfold commitDeduction at h
    rw [List.foldlM_cons] at h
    cases h0 : commitOne bs e with
    | error err => rw [h0] at h; cases h
    | ok bs0 =>
      rw [h0] at h
      have hstep := ih h bid
      rw [commitOne_ok h0] at hstep
      rw [hstep, findBatch_adjust]
      cases hf : findBatch bs bid with
      | none => rfl
      | some b =>
        have hb := findBatch_id hf
        by_cases he : e.1 = bid
        · simp only [Option.map_some', sumFor_cons, if_pos he]
          rw [if_pos (show (b.batch_id == e.1) = true by simp [hb, he])]
          congr 1
          ring
        · simp only [Option.map_some', sumFor_cons, if_neg he]
          rw [if_neg (show ¬(b.batch_id == e.1) = true by simp [hb]; omega)]
          congr 1
          ring

theorem restoreDeduction_ok (rows : List (Nat × ℤ)) :
    ∀ bs : List InventoryBatch,
    (∀ e ∈ rows, 0 ≤ e.2) →
    (∀ e ∈ rows, (findBatch bs e.1).isSome) →
    (∀ bid b, findBatch bs bid = some b →
      b.quantity_current + sumFor rows bid ≤ b.quantity_initial) →
    ∃ bs', restoreDeduction bs rows = .ok bs' ∧
      ∀ bid, findBatch bs' bid =
        (findBatch bs bid).map fun b =>
          { b with quantity_current := b.quantity_current + sumFor rows bid } := by
  induction rows with
  | nil =>
    intro bs _ _ _
    refine ⟨bs, rfl, fun bid => ?_⟩
    cases hf : findBatch bs bid <;> simp [sumFor_nil]
  | cons e rows ih =>
    intro bs hpos hpresent hbound
    obtain ⟨b, hb⟩ := Option.isSome_iff_exists.mp (hpresent e (List.mem_cons_self _ _))
    have hbid := findBatch_id hb
    have hsum : 0 ≤ sumFor rows e.1 :=
      sumFor_nonneg (fun x hx => hpos x (List.mem_cons_of_mem _ hx)) e.1
    have hb_bound := hbound e.1 b hb
    rw [sumFor_cons, if_pos rfl] at hb_bound
    have hguard : ¬ b.quantity_initial < b.quantity_current + e.2 := by omega
    have hone : restoreOne bs e = .ok (adjustQty bs e.1 e.2) := by
      simp only [restoreOne, hb]
      rw [if_neg hguard]
    set bs0 := adjustQty bs e.1 e.2 with hbs0
    have hfind0 : ∀ bid, findBatch bs0 bid =
        (findBatch bs bid).map fun b =>
          if b.batch_id == e.1 then { b with quantity_current := b.quantity_current + e.2 }
          else b := fun bid => findBatch_adjust bs e.1 e.2 bid
    obtain ⟨bs', hrest, hformula⟩ := ih bs0
      (fun x hx => hpos x (List.mem_cons_of_mem _ hx))
      (fun x hx => by
        rw [hfind0]
        have := hpresent x (List.mem_cons_of_mem _ hx)
        cases hf : findBatch bs x.1
        · rw [hf] at this; cases this
        · simp)
      (fun bid b' hb' => by
        rw [hfind0] at hb'
        cases hf : findBatch bs bid with
        | none => rw [hf] at hb'; cases hb'
        | some b0 =>
          rw [hf] at hb'
          have hb0 := findBatch_id hf
          simp only [Option.map_some', Option.some.injEq] at hb'
          have hold := hbound bid b0 hf
          rw [sumFor_cons] at hold
          by_cases he : e.1 = bid
          · rw [if_pos (show (b0.batch_id == e.1) = true by simp [hb0, he])] at hb'
            rw [← hb']
            simp only [if_pos he] at hold
            show b0.quantity_current + e.2 + sumFor rows bid ≤ b0.quantity_initial
            omega
          · rw [if_neg (show ¬(b0.batch_id == e.1) = true by simp [hb0]; omega)] at hb'
            rw [← hb']
            simp only [if_neg he] at hold
            show b0.quantity_current + sumFor rows bid ≤ b0.quantity_initial
            omega)
    refine ⟨bs', ?_, fun bid => ?_⟩
    · unfold restoreDeduction at *
      rw [List.foldlM_cons, hone]
      exact hrest
    · rw [hformula bid, hfind0 bid]
      cases hf : findBatch bs bid with
      | none => rfl
      | some b0 =>
        have hb0 := findBatch_id hf
        by_cases he : e.1 = bid
        · simp only [Option.map_some', sumFor_cons, if_pos he]
          rw [if_pos (show (b0.batch_id == e.1) = true by simp [hb0, he])]
          congr 1
          ring
        · simp only [Option.map_some', sumFor_cons, if_neg he]
          rw [if_neg (show ¬(b0.batch_id == e.1) = true by simp [hb0]; omega)]
          congr 1
          ring

theorem contains_false_of_not_mem {l : List Nat} {a : Nat} (h : a ∉ l) :
    l.contains a = false := by
  cases hc : l.contains a
  · rfl
  · exact absurd (List.elem_iff.mp hc) h

theorem selectForDeduction_ok_inv {bs : List InventoryBatch} {needed : ℤ}
    {plan : List (Nat × ℤ)} (h : selectForDeduction bs needed = .ok plan) :
    needed ≤ totalQty (activeBatches bs) ∧
    plan = greedyAlloc (fifoSort (activeBatches bs)) needed := by
  simp only [selectForDeduction] at h
  split at h
  · cases h
  next hc => exact ⟨by omega, (Except.ok.inj h).symm⟩

theorem greedyAlloc_mem {l : List InventoryBatch} {n : ℤ} {a : Nat × ℤ}
    (hact : ∀ b ∈ l, 0 < b.quantity_current)
    (ha : a ∈ greedyAlloc l n) :
    ∃ b ∈ l, a.1 = b.batch_id ∧ 0 < a.2 ∧ a.2 ≤ b.quantity_current := by
  induction l generalizing n with
  | nil => simp [greedyAlloc] at ha
  | cons b rest ih =>
    rw [greedyAlloc] at ha
    by_cases h0 : n ≤ 0
    · simp [if_pos h0] at ha
    · rw [if_neg h0] at ha
      by_cases h1 : n ≤ b.quantity_current
      · rw [if_pos h1] at ha
        have ha' := List.mem_singleton.mp ha
        refine ⟨b, List.mem_cons_self _ _, ?_, ?_, ?_⟩ <;> rw [ha'] <;> first | rfl | omega
      · rw [if_neg h1] at ha
        rcases List.mem_cons.mp ha with rfl | hatail
        · exact ⟨b, List.mem_cons_self _ _,
            rfl, hact b (List.mem_cons_self _ _), le_refl _⟩
        · obtain ⟨b', hb', h2, h3, h4⟩ :=
            ih (fun x hx => hact x (List.mem_cons_of_mem _ hx)) hatail
          exact ⟨b', List.mem_cons_of_mem _ hb', h2, h3, h4⟩

theorem greedyAlloc_ne_nil {l : List InventoryBatch} {n : ℤ}
    (h1 : 0 < n) (h2 : n ≤ totalQty l) : greedyAlloc l n ≠ [] := by
  obtain ⟨k, hk, heq, _, _⟩ := greedyAlloc_struct l n h1 h2
  rw [heq]
  simp

theorem buildPlans_cons_inv {st : LedgerState} {e : Nat × ℤ} {rest : List (Nat × ℤ)}
    {qty : ℤ} {plans : List (List (Nat × ℤ))}
    (h : buildPlans st (e :: rest) qty = .ok plans) :
    ∃ p ps, selectForDeduction (batchesOf st e.1) (e.2 * qty) = .ok p ∧
      buildPlans st rest qty = .ok ps ∧ plans = p :: ps := by
  rw [buildPlans] at h
  cases hsel : selectForDeduction (batchesOf st e.1) (e.2 * qty) with
  | error err => rw [hsel] at h; cases h
  | ok p =>
    rw [hsel] at h
    cases hrest : buildPlans st rest qty with
    | error err => rw [hrest] at h; simp [Bind.bind, Except.bind] at h
    | ok ps =>
      rw [hrest] at h
      simp only [Bind.bind, Except.bind] at h
      exact ⟨p, ps, rfl, rfl, (Except.ok.inj h).symm⟩

theorem buildPlans_mem {st : LedgerState} :
    ∀ {recipe : List (Nat × ℤ)} {qty : ℤ} {plans : List (List (Nat × ℤ))},
    buildPlans st recipe qty = .ok plans →
    ∀ p ∈ plans, ∃ e ∈ recipe, selectForDeduction (batchesOf st e.1) (e.2 * qty) = .ok p := by
  intro recipe
  induction recipe with
  | nil =>
    intro qty plans h p hp
    rw [buildPlans] at h
    cases h
    cases hp
  | cons e rest ih =>
    intro qty plans h p hp
    obtain ⟨p0, ps, hsel, hrest, rfl⟩ := buildPlans_cons_inv h
    rcases List.mem_cons.mp hp with rfl | hps
    · exact ⟨e, List.mem_cons_self _ _, hsel⟩
    · obtain ⟨e', he', hsel'⟩ := ih hrest p hps
      exact ⟨e', List.mem_cons_of_mem _ he', hsel'⟩

theorem entries_facts {st : LedgerState} {recipe : List (Nat × ℤ)} {qty : ℤ}
    {plans : List (List (Nat × ℤ))}
    (h : buildPlans st recipe qty = .ok plans) :
    ∀ a ∈ plans.flatten, ∃ b ∈ st.batches,
      a.1 = b.batch_id ∧ 0 < a.2 ∧ a.2 ≤ b.quantity_current := by
  intro a ha
  obtain ⟨p, hp, hap⟩ := List.mem_flatten.mp ha
  obtain ⟨e, _, hsel⟩ := buildPlans_mem h p hp
  obtain ⟨_, hplan⟩ := selectForDeduction_ok_inv hsel
  rw [hplan] at hap
  have hact : ∀ b ∈ fifoSort (activeBatches (batchesOf st e.1)), 0 < b.quantity_current := by
    intro b hb
    have hb1 : b ∈ activeBatches (batchesOf st e.1) :=
      (List.Perm.mem_iff (List.perm_insertionSort _ _)).mp hb
    have := (List.mem_filter.mp hb1).2
    simpa [isActive] using this
  obtain ⟨b, hbmem, h1, h2, h3⟩ := greedyAlloc_mem hact hap
  have hb1 : b ∈ activeBatches (batchesOf st e.1) :=
    (List.Perm.mem_iff (List.perm_insertionSort _ _)).mp hbmem
  have hb2 : b ∈ batchesOf st e.1 := (List.mem_filter.mp hb1).1
  exact ⟨b, (List.mem_filter.mp hb2).1, h1, h2, h3⟩

theorem record_ok_inv {st : LedgerState} {recipe : List (Nat × ℤ)} {outputItem : Item}
    {qty : ℤ} {today : Nat} {st' : LedgerState} {res : RunResult}
    (h : record st recipe outputItem qty today = .ok (st', res)) :
    ∃ plans batches1,
      0 < qty ∧
      recipe ≠ [] ∧
      buildPlans st recipe qty = .ok plans ∧
      commitDeduction st.batches plans.flatten = .ok batches1 ∧
      st' = { batches := batches1 ++ [outputBatch st outputItem qty today plans.flatten],
              logs := st.logs ++
                plans.flatten.map (mkRunLog st.nextRunId st.nextBatchId),
              reverted := st.reverted,
              nextBatchId := st.nextBatchId + 1,
              nextRunId := st.nextRunId + 1 } ∧
      res = { run_id := st.nextRunId, output_batch_id := st.nextBatchId,
              quantity_produced := qty } := by
  rw [record] at h
  by_cases hq : qty ≤ 0
  · rw [if_pos hq] at h; cases h
  · rw [if_neg hq] at h
    by_cases hre : recipe.isEmpty
    · rw [if_pos hre] at h; cases h
    · rw [if_neg hre] at h
      cases hplans : buildPlans st recipe qty with
      | error err => rw [hplans] at h; cases h
      | ok plans =>
        rw [hplans] at h
        simp only [Bind.bind, Except.bind] at h
        cases hcommit : commitDeduction st.batches plans.flatten with
        | error err => rw [hcommit] at h; cases h
        | ok batches1 =>
          rw [hcommit] at h
          simp only [Bind.bind, Except.bind] at h
          have hpair := Except.ok.inj h
          refine ⟨plans, batches1, by omega, ?_, rfl, hcommit, ?_, ?_⟩
          · intro hnil
            rw [hnil] at hre
            exact hre rfl
          · exact (congrArg Prod.fst hpair).symm
          · exact (congrArg Prod.snd hpair).symm

theorem findBatch_append_left {l₁ l₂ : List InventoryBatch} {bid : Nat} {b : InventoryBatch}
    (h : findBatch l₁ bid = some b) : findBatch (l₁ ++ l₂) bid = some b := by
  rw [findBatch_append, h]
  rfl

theorem findBatch_append_right {l₁ l₂ : List InventoryBatch} {bid : Nat}
    (h : findBatch l₁ bid = none) : findBatch (l₁ ++ l₂) bid = findBatch l₂ bid := by
  rw [findBatch_append, h]
  rfl

theorem findBatch_singleton (b : InventoryBatch) (bid : Nat) :
    findBatch [b] bid = if b.batch_id == bid then some b else none := by
  unfold findBatch
  rw [List.find?_cons]
  cases h : b.batch_id == bid <;> simp [h]

theorem findBatch_eq_none {bs : List InventoryBatch} {bid : Nat}
    (h : ∀ x ∈ bs, x.batch_id ≠ bid) : findBatch bs bid = none := by
  unfold findBatch
  rw [List.find?_eq_none]
  intro x hx
  simpa using h x hx

theorem runLogs_roundtrip (runId outId : Nat) (entries : List (Nat × ℤ)) :
    (entries.map (mkRunLog runId outId)).map
      (fun l => (l.input_batch_id, l.quantity_used)) = entries := by
  rw [List.map_map]
  have hid : ((fun l : ProductionLog => (l.input_batch_id, l.quantity_used)) ∘
      mkRunLog runId outId) = id := by
    funext e
    rfl
  rw [hid, List.map_id]

/-- C2: record followed immediately by revert restores every batch of the
original state to its pre-production quantity (in particular every consumed
input batch) and forces the output batch's quantity_current to zero. -/
theorem record_revert_roundtrip
    (st : LedgerState) (recipe : List (Nat × ℤ)) (outputItem : Item)
    (qty : ℤ) (today : Nat) (st' : LedgerState) (res : RunResult)
    (hwf : WFState st) (hrec : WFRecipe recipe)
    (h : record st recipe outputItem qty today = .ok (st', res)) :
    ∃ st'', revert st' res.run_id = .ok st'' ∧
      (∀ b ∈ st.batches, qtyOf st''.batches b.batch_id = some b.quantity_current) ∧
      qtyOf st''.batches res.output_batch_id = some 0 := by
  obtain ⟨hnodup, hidlt, hqbound, hloginput, hlogrun, hrevlt⟩ := hwf
  obtain ⟨hrnodup, hrpos⟩ := hrec
  obtain ⟨plans, batches1, hq, hne, hplans, hcommit, hst', hres⟩ := record_ok_inv h
  have hrunid : res.run_id = st.nextRunId := by rw [hres]
  have houtid : res.output_batch_id = st.nextBatchId := by rw [hres]
  have hfacts := entries_facts hplans
  have hidsmall : ∀ a ∈ plans.flatten, a.1 < st.nextBatchId := by
    intro a ha
    obtain ⟨b, hb, he, _, _⟩ := hfacts a ha
    rw [he]
    exact hidlt b hb
  obtain ⟨E, es, hE⟩ : ∃ E es, plans.flatten = E :: es := by
    obtain ⟨e0, r0, rfl⟩ := List.exists_cons_of_ne_nil hne
    obtain ⟨p, ps, hsel, _, rfl⟩ := buildPlans_cons_inv hplans
    have hneed : 0 < e0.2 * qty := mul_pos (hrpos e0 (List.mem_cons_self _ _)) hq
    obtain ⟨hle, hp⟩ := selectForDeduction_ok_inv hsel
    have hpne : p ≠ [] := by
      rw [hp]
      refine greedyAlloc_ne_nil hneed ?_
      unfold fifoSort
      rw [totalQty_perm (List.perm_insertionSort _ _)]
      exact hle
    obtain ⟨E, es', rfl⟩ := List.exists_cons_of_ne_nil hpne
    exact ⟨E, es' ++ ps.flatten, by simp⟩
  have hcfind := commitDeduction_findBatch hcommit
  have hnn : ∀ e ∈ plans.flatten, 0 ≤ e.2 := by
    intro e he
    obtain ⟨b, _, _, hpos, _⟩ := hfacts e he
    omega
  have hsumout : sumFor plans.flatten st.nextBatchId = 0 :=
    sumFor_eq_zero fun e he => by have := hidsmall e he; omega
  have hpres : ∀ e ∈ plans.flatten,
      (findBatch (batches1 ++ [outputBatch st outputItem qty today plans.flatten])
        e.1).isSome := by
    intro e he
    obtain ⟨b, hb, hid, _, _⟩ := hfacts e he
    have h0 : findBatch st.batches b.batch_id = some b := findBatch_nodup hnodup hb
    have h1 := hcfind b.batch_id
    rw [h0] at h1
    rw [hid, findBatch_append_left h1]
    rfl
  have hbound : ∀ bid b',
      findBatch (batches1 ++ [outputBatch st outputItem qty today plans.flatten]) bid
        = some b' →
      b'.quantity_current + sumFor plans.flatten bid ≤ b'.quantity_initial := by
    intro bid b' hb'
    rw [findBatch_append] at hb'
    cases hf1 : findBatch batches1 bid with
    | some b1 =>
      rw [hf1] at hb'
      have hb1 : b1 = b' := Option.some.inj hb'
      have h1 := hcfind bid
      rw [hf1] at h1
      cases hf0 : findBatch st.batches bid with
      | none => rw [hf0] at h1; cases h1
      | some b0 =>
        rw [hf0] at h1
        simp only [Option.map_some'] at h1
        have hqb := hqbound b0 (findBatch_mem hf0)
        have hb1eq := Option.some.inj h1
        rw [← hb1, hb1eq]
        show b0.quantity_current - sumFor plans.flatten bid + sumFor plans.flatten bid
          ≤ b0.quantity_initial
        omega
    | none =>
      rw [hf1] at hb'
      rw [show (Option.none.or
          (findBatch [outputBatch st outputItem qty today plans.flatten] bid))
          = findBatch [outputBatch st outputItem qty today plans.flatten] bid from rfl,
        findBatch_singleton] at hb'
      by_cases hbid : (outputBatch st outputItem qty today plans.flatten).batch_id = bid
      · rw [if_pos (by simpa using hbid)] at hb'
        have hbid' : st.nextBatchId = bid := hbid
        rw [← Option.some.inj hb', ← hbid', hsumout]
        show qty + 0 ≤ qty
        omega
      · rw [if_neg (by simpa using hbid)] at hb'
        cases hb'
  obtain ⟨restored, hrest, hrform⟩ := restoreDeduction_ok plans.flatten _ hnn hpres hbound
  refine ⟨{ batches := voidBatch restored st.nextBatchId,
            logs := st.logs ++ plans.flatten.map (mkRunLog st.nextRunId st.nextBatchId),
            reverted := st.reverted ++ [st.nextRunId],
            nextBatchId := st.nextBatchId + 1,
            nextRunId := st.nextRunId + 1 }, ?_, ?_, ?_⟩
  · rw [hrunid, hst']
    have hcont : st.reverted.contains st.nextRunId = false :=
      contains_false_of_not_mem fun hm => lt_irrefl _ (hrevlt _ hm)
    have hfilter : (st.logs ++
        plans.flatten.map (mkRunLog st.nextRunId st.nextBatchId)).filter
          (·.run_id == st.nextRunId) =
        plans.flatten.map (mkRunLog st.nextRunId st.nextBatchId) := by
      rw [List.filter_append,
        List.filter_eq_nil_iff.mpr (fun l hl => by
          have := hlogrun l hl
          simp only [beq_iff_eq]
          omega),
        List.filter_eq_self.mpr (fun l hl => by
          obtain ⟨e, _, rfl⟩ := List.mem_map.mp hl
          simp [mkRunLog])]
      rfl
    have hany : (st.logs ++
        plans.flatten.map (mkRunLog st.nextRunId st.nextBatchId)).any
          (fun l => l.input_batch_id == st.nextBatchId) = false := by
      rw [List.any_eq_false]
      intro l hl
      rcases List.mem_append.mp hl with hold | hnew
      · have := hloginput l hold
        simp only [beq_iff_eq]
        omega
      · obtain ⟨e, he, rfl⟩ := List.mem_map.mp hnew
        have := hidsmall e he
        simp only [mkRunLog, beq_iff_eq]
        omega
    rw [revert]
    rw [if_neg (show ¬((st.reverted.contains st.nextRunId) = true) by rw [hcont]; simp)]
    rw [hE] at hfilter
    rw [hE]
    simp only [List.map_cons] at hfilter ⊢
    rw [hfilter]
    rw [revertRows]
    rw [if_neg (by
      rw [hE] at hany
      simp only [List.map_cons] at hany
      have hout : (mkRunLog st.nextRunId st.nextBatchId E).output_batch_id
          = st.nextBatchId := rfl
      rw [hout, hany]
      simp)]
    have hback : ((mkRunLog st.nextRunId st.nextBatchId E) ::
        es.map (mkRunLog st.nextRunId st.nextBatchId)).map
        (fun l => (l.input_batch_id, l.quantity_used)) = E :: es := by
      have h5 := runLogs_roundtrip st.nextRunId st.nextBatchId (E :: es)
      simpa using h5
    rw [hback]
    rw [hE] at hrest
    rw [hrest]
    simp only [Bind.bind, Except.bind]
    rfl
  · intro b hb
    have hbidlt := hidlt b hb
    have h0 : findBatch st.batches b.batch_id = some b := findBatch_nodup hnodup hb
    have h1 := hcfind b.batch_id
    rw [h0] at h1
    have h2 : findBatch
        (batches1 ++ [outputBatch st outputItem qty today plans.flatten]) b.batch_id =
        some { b with quantity_current :=
          b.quantity_current - sumFor plans.flatten b.batch_id } :=
      findBatch_append_left (by rw [h1]; rfl)
    have h3 := hrform b.batch_id
    rw [h2] at h3
    have h4 := findBatch_void restored st.nextBatchId b.batch_id
    rw [h3] at h4
    simp only [Option.map_some'] at h4
    rw [if_neg (by simp; omega)] at h4
    unfold qtyOf
    show (findBatch (voidBatch restored st.nextBatchId) b.batch_id).map _ = _
    rw [h4]
    simp only [Option.map_some', Option.some.injEq]
    show b.quantity_current - sumFor plans.flatten b.batch_id
      + sumFor plans.flatten b.batch_id = b.quantity_current
    ring
  · rw [houtid]
    have h0 : findBatch st.batches st.nextBatchId = none :=
      findBatch_eq_none fun x hx => by have := hidlt x hx; omega
    have h1 : findBatch batches1 st.nextBatchId = none := by
      have h2 := hcfind st.nextBatchId
      rw [h0] at h2
      exact h2
    have h3 : findBatch
        (batches1 ++ [outputBatch st outputItem qty today plans.flatten]) st.nextBatchId =
        some (outputBatch st outputItem qty today plans.flatten) := by
      rw [findBatch_append_right h1, findBatch_singleton]
      rw [if_pos (by simp [outputBatch])]
    have h4 := hrform st.nextBatchId
    rw [h3] at h4
    have h5 := findBatch_void restored st.nextBatchId st.nextBatchId
    rw [h4] at h5
    simp only [Option.map_some'] at h5
    rw [if_pos (by simp [outputBatch])] at h5
    unfold qtyOf
    show (findBatch (voidBatch restored st.nextBatchId) st.nextBatchId).map _ = _
    rw [h5]
    rfl

/-- Example batches of the specification's FIFO test: B1 has 3 units expiring
on day 1, B2 has 5 units expiring on day 2. -/
def fifoExB1 : InventoryBatch :=
  { batch_id := 1, item_id := 10, quantity_initial := 3, quantity_current := 3,
    unit_cost := 5, expiration_date := some 1 }

/-- Companion example batch, expiring after fifoExB1. -/
def fifoExB2 : InventoryBatch :=
  { batch_id := 2, item_id := 10, quantity_initial := 5, quantity_current := 5,
    unit_cost := 5, expiration_date := some 2 }

/-- C1: whenever the needed quantity is positive and within the total active
stock, the FIFO allocation plan exists, its amounts sum exactly to the
needed quantity, it drains the FIFO-sorted active batches in order (each
fully before touching the next, ending in a positive remainder), the sorted
list is ordered by the FIFO relation (expiration ascending, nulls last,
ties by batch_id) and is a permutation of the active batches; and on the
specification's example (B1 3 units expiring first, B2 5 units, needed 4)
the plan is [(B1, 3), (B2, 1)]. -/
theorem selectForDeduction_fifo_spec (bs : List InventoryBatch) (needed : ℤ)
    (h1 : 0 < needed) (h2 : needed ≤ totalQty (activeBatches bs)) :
    ∃ plan, selectForDeduction bs needed = .ok plan ∧
      planSum plan = needed ∧
      GreedyStruct (fifoSort (activeBatches bs)) needed plan ∧
      List.Sorted fifoLe (fifoSort (activeBatches bs)) ∧
      (fifoSort (activeBatches bs)).Perm (activeBatches bs) ∧
      selectForDeduction [fifoExB2, fifoExB1] 4 = .ok [(1, 3), (2, 1)] := by
  have htot : needed ≤ totalQty (fifoSort (activeBatches bs)) := by
    unfold fifoSort
    rw [totalQty_perm (List.perm_insertionSort _ _)]
    exact h2
  refine ⟨greedyAlloc (fifoSort (activeBatches bs)) needed, ?_, ?_, ?_, ?_, ?_, ?_⟩
  · simp only [selectForDeduction]
    rw [if_neg (by omega)]
  · exact greedyAlloc_sum _ _ h1 htot
  · exact greedyAlloc_struct _ _ h1 htot
  · exact List.sorted_insertionSort _ _
  · exact List.perm_insertionSort _ _
  · decide

theorem selectForDeduction_fifo_spec_witness :
    (0 : ℤ) < 4 ∧ (4 : ℤ) ≤ totalQty (activeBatches [fifoExB2, fifoExB1]) ∧
    ∃ plan, selectForDeduction [fifoExB2, fifoExB1] 4 = .ok plan ∧
      planSum plan = 4 ∧
      GreedyStruct (fifoSort (activeBatches [fifoExB2, fifoExB1])) 4 plan ∧
      List.Sorted fifoLe (fifoSort (activeBatches [fifoExB2, fifoExB1])) ∧
      (fifoSort (activeBatches [fifoExB2, fifoExB1])).Perm
        (activeBatches [fifoExB2, fifoExB1]) ∧
      selectForDeduction [fifoExB2, fifoExB1] 4 = .ok [(1, 3), (2, 1)] :=
  ⟨by decide, by decide,
    selectForDeduction_fifo_spec [fifoExB2, fifoExB1] 4 (by decide) (by decide)⟩

/-- C3: a second revert of the same production run fails with
AlreadyReverted.  The model is purely functional, so a failing call returns
only the error and no successor state: the second call performs no
mutation. -/
theorem revert_twice_fails (st : LedgerState) (runId : Nat) (st'' : LedgerState)
    (h : revert st runId = .ok st'') :
    revert st'' runId = .error .alreadyReverted := by
  rw [revert] at h
  by_cases hc : st.reverted.contains runId
  · rw [if_pos hc] at h
    cases h
  · rw [if_neg hc] at h
    cases hrows : st.logs.filter (·.run_id == runId) with
    | nil =>
      rw [hrows, revertRows] at h
      cases h
    | cons r rest =>
      rw [hrows, revertRows] at h
      by_cases hany : st.logs.any (fun l => l.input_batch_id == r.output_batch_id)
      · rw [if_pos hany] at h
        cases h
      · rw [if_neg hany] at h
        cases hres : restoreDeduction st.batches
            ((r :: rest).map fun l => (l.input_batch_id, l.quantity_used)) with
        | error e =>
          rw [hres] at h
          simp [Bind.bind, Except.bind] at h
        | ok restored =>
          rw [hres] at h
          simp only [Bind.bind, Except.bind] at h
          have hst := Except.ok.inj h
          have hcc : st''.reverted.contains runId = true := by
            rw [← hst]
            show (st.reverted ++ [runId]).contains runId = true
            exact List.elem_iff.mpr (by simp)
          rw [revert, if_pos hcc]

/-- C4: logWaste fails with InsufficientStock whenever the requested
quantity strictly exceeds the batch's current quantity (a failing call
returns only the error, so the batch is unchanged), and on success the
waste log's cost_loss equals the quantity times the batch's unit cost. -/
theorem logWaste_spec (st : LedgerState) (bid : Nat) (b : InventoryBatch)
    (qty : ℤ) (reason : String)
    (hfind : findBatch st.batches bid = some b) :
    (b.quantity_current < qty →
      logWaste st bid qty reason =
        .error (.insufficientStock (qty - b.quantity_current))) ∧
    (∀ st' wl, logWaste st bid qty reason = .ok (st', wl) →
      wl.cost_loss = qty * b.unit_cost ∧ wl.quantity = qty ∧ wl.batch_id = bid) := by
  constructor
  · intro hlt
    simp only [logWaste, hfind]
    rw [if_pos hlt]
  · intro st' wl h
    simp only [logWaste, hfind] at h
    by_cases hlt : b.quantity_current < qty
    · rw [if_pos hlt] at h
      cases h
    · rw [if_neg hlt] at h
      cases hcd : commitDeduction st.batches [(bid, qty)] with
      | error e =>
        rw [hcd] at h
        simp [Bind.bind, Except.bind] at h
      | ok bs =>
        rw [hcd] at h
        simp only [Bind.bind, Except.bind] at h
        have hpair := Except.ok.inj h
        have hw : WasteLog.mk bid qty reason (qty * b.unit_cost) = wl :=
          congrArg Prod.snd hpair
        rw [← hw]
        exact ⟨rfl, rfl, rfl⟩

/-- A two-batch prepped item for the concrete round-trip runs. -/
def exItem : Item :=
  { item_id := 20, name := "soup", unit := "l", shelf_life_days := 2, type := .Prepped }

/-- Concrete starting state: the two FIFO example batches, no logs. -/
def exState : LedgerState :=
  { batches := [fifoExB1, fifoExB2], logs := [], reverted := [],
    nextBatchId := 3, nextRunId := 0 }

/-- The recipe of exItem: two units of item 10 per unit produced. -/
def exRecipe : List (Nat × ℤ) := [(10, 2)]

/-- The state after recording a run of 2 units of exItem on exState. -/
def exStateAfter : LedgerState :=
  { batches := [{ batch_id := 1, item_id := 10, quantity_initial := 3,
                  quantity_current := 0, unit_cost := 5, expiration_date := some 1 },
                { batch_id := 2, item_id := 10, quantity_initial := 5,
                  quantity_current := 4, unit_cost := 5, expiration_date := some 2 },
                { batch_id := 3, item_id := 20, quantity_initial := 2,
                  quantity_current := 2, unit_cost := 20, expiration_date := some 102 }],
    logs := [{ run_id := 0, output_batch_id := 3, input_batch_id := 1, quantity_used := 3 },
             { run_id := 0, output_batch_id := 3, input_batch_id := 2, quantity_used := 1 }],
    reverted := [], nextBatchId := 4, nextRunId := 1 }

/-- The state after reverting that run again. -/
def exStateReverted : LedgerState :=
  { batches := [fifoExB1, fifoExB2,
                { batch_id := 3, item_id := 20, quantity_initial := 2,
                  quantity_current := 0, unit_cost := 20, expiration_date := some 102 }],
    logs := [{ run_id := 0, output_batch_id := 3, input_batch_id := 1, quantity_used := 3 },
             { run_id := 0, output_batch_id := 3, input_batch_id := 2, quantity_used := 1 }],
    reverted := [0], nextBatchId := 4, nextRunId := 1 }

theorem record_revert_roundtrip_witness :
    WFState exState ∧ WFRecipe exRecipe ∧
    record exState exRecipe exItem 2 100 =
      .ok (exStateAfter, { run_id := 0, output_batch_id := 3, quantity_produced := 2 }) ∧
    ∃ st'', revert exStateAfter (RunResult.mk 0 3 2).run_id = .ok st'' ∧
      (∀ b ∈ exState.batches, qtyOf st''.batches b.batch_id = some b.quantity_current) ∧
      qtyOf st''.batches (RunResult.mk 0 3 2).output_batch_id = some 0 :=
  ⟨by decide, by decide, by decide,
    record_revert_roundtrip exState exRecipe exItem 2 100 exStateAfter
      (RunResult.mk 0 3 2) (by decide) (by decide) (by decide)⟩

theorem revert_twice_fails_witness :
    revert exStateAfter 0 = .ok exStateReverted ∧
    revert exStateReverted 0 = .error .alreadyReverted :=
  ⟨by decide, revert_twice_fails exStateAfter 0 exStateReverted (by decide)⟩

theorem logWaste_spec_witness :
    findBatch exState.batches 1 = some fifoExB1 ∧
    fifoExB1.quantity_current < 9 ∧
    logWaste exState 1 9 "Spoiled" =
      .error (.insufficientStock (9 - fifoExB1.quantity_current)) ∧
    ((logWaste exState 1 2 "Spoiled").map (fun p => p.2.cost_loss) = .ok 10) :=
  ⟨by decide, by decide,
    (logWaste_spec exState 1 fifoExB1 9 "Spoiled" (by decide)).1 (by decide),
    by decide⟩

/-- The available-items filter of the RecipeBuilder in
frontend/src/features/recipes/RecipeBuilder.tsx (lines 57 to 69): excludes
the dish itself, applies the name search, and offers only items of strictly
lower tier than the target type (a Prepped target gets Raw items, a Dish
target gets Raw and Prepped items). -/
def rbAvailableItems (dish : Item) (targetItemType : ItemType)
    (allItems : List Item) (matchesSearch : String → Bool) : List Item :=
  allItems.filter fun item =>
    if item.item_id == dish.item_id then false
    else if !matchesSearch item.name then false
    else
      match targetItemType with
      | .Prepped => item.type == .Raw
      | .Dish => item.type == .Raw || item.type == .Prepped
      | .Raw => false

/-- The availableIngredients filter of the DefinitionsPage item form
(src/unnamed/part_005 lines 182 to 194): applies the name search and the
tier rule driven by the form's selected type; it has no id-based
self-exclusion because the form creates a new item. -/
def defAvailableIngredients (formType : ItemType) (allItems : List Item)
    (matchesSearch : String → Bool) : List Item :=
  allItems.filter fun item =>
    if !matchesSearch item.name then false
    else
      match formType with
      | .Prepped => item.type == .Raw
      | .Dish => item.type == .Raw || item.type == .Prepped
      | .Raw => false

/-- The availableItems filter of the frontend-web RecipeBuilder
(src/unnamed/part_004 lines 212 to 216): it excludes only the dish itself
and applies the name search; it has no tier rule at all. -/
def webAvailableItems (dish : Item) (allItems : List Item)
    (matchesSearch : String → Bool) : List Item :=
  allItems.filter fun item =>
    item.item_id != dish.item_id && matchesSearch item.name

/-- A Dish-typed output item for the tier counterexample. -/
def c5Dish : Item :=
  { item_id := 1, name := "a", unit := "u", shelf_life_days := 1, type := .Dish }

/-- A second Dish-typed item, offered by the frontend-web RecipeBuilder as
an ingredient of c5Dish even though its tier is not strictly lower. -/
def c5Other : Item :=
  { item_id := 2, name := "b", unit := "u", shelf_life_days := 1, type := .Dish }

/-- C5 counterexample: the frontend-web RecipeBuilder offers a Dish-typed
item as an ingredient for a Dish output, so the claim that every
recipe-edge insertion interface offers only items of strictly lower tier is
false. -/
theorem webAvailableItems_tier_cex :
    c5Other ∈ webAvailableItems c5Dish [c5Dish, c5Other] (fun _ => true) ∧
    ¬ tier c5Other.type < tier c5Dish.type := by
  decide

/-- C5 amended: the frontend RecipeBuilder offers an item only when its
tier is strictly below the target tier and it is not the output itself; the
DefinitionsPage item form offers an item only when its tier is strictly
below the form's selected type; the frontend-web RecipeBuilder enforces
only the self-exclusion (no tier rule). -/
theorem availableItems_tier_spec :
    (∀ dish t items m item, item ∈ rbAvailableItems dish t items m →
      tier item.type < tier t ∧ item.item_id ≠ dish.item_id) ∧
    (∀ t items m item, item ∈ defAvailableIngredients t items m →
      tier item.type < tier t) ∧
    (∀ dish items m item, item ∈ webAvailableItems dish items m →
      item.item_id ≠ dish.item_id) := by
  refine ⟨?_, ?_, ?_⟩
  · intro dish t items m item hmem
    obtain ⟨-, hcond⟩ := List.mem_filter.mp hmem
    split at hcond
    next h1 => cases hcond
    next h1 =>
      split at hcond
      next h2 => cases hcond
      next h2 =>
        refine ⟨?_, by simpa using h1⟩
        cases t with
        | Raw => cases hcond
        | Prepped =>
          simp only [beq_iff_eq] at hcond
          rw [hcond]
          decide
        | Dish =>
          rcases Bool.or_eq_true .. |>.mp hcond with hr | hp
          · simp only [beq_iff_eq] at hr
            rw [hr]
            decide
          · simp only [beq_iff_eq] at hp
            rw [hp]
            decide
  · intro t items m item hmem
    obtain ⟨-, hcond⟩ := List.mem_filter.mp hmem
    split at hcond
    next h2 => cases hcond
    next h2 =>
      cases t with
      | Raw => cases hcond
      | Prepped =>
        simp only [beq_iff_eq] at hcond
        rw [hcond]
        decide
      | Dish =>
        rcases Bool.or_eq_true .. |>.mp hcond with hr | hp
        · simp only [beq_iff_eq] at hr
          rw [hr]
          decide
        · simp only [beq_iff_eq] at hp
          rw [hp]
          decide
  · intro dish items m item hmem
    obtain ⟨-, hcond⟩ := List.mem_filter.mp hmem
    have h1 := (Bool.and_eq_true .. |>.mp hcond).1
    simpa using h1

/-- A Raw item offered in the recipe builder witness. -/
def c5Raw : Item :=
  { item_id := 3, name := "c", unit := "u", shelf_life_days := 1, type := .Raw }

theorem availableItems_tier_spec_witness :
    c5Raw ∈ rbAvailableItems c5Dish .Dish [c5Dish, c5Raw] (fun _ => true) ∧
    (tier c5Raw.type < tier ItemType.Dish ∧ c5Raw.item_id ≠ c5Dish.item_id) :=
  ⟨by decide,
    availableItems_tier_spec.1 c5Dish .Dish [c5Dish, c5Raw] (fun _ => true) c5Raw
      (by decide)⟩

/-- The disabled attribute of a batch option in IngredientBatchSelector
(src/unnamed/part_004 line 360): an option is disabled exactly when the
batch's current quantity is below the needed quantity. -/
def batchOptionDisabled (b : InventoryBatch) (quantityNeeded : ℤ) : Bool :=
  b.quantity_current < quantityNeeded

/-- The sufficiency indicator of IngredientBatchSelector (src/unnamed/part_004
lines 336 and 337): look up the selected batch and compare its current
quantity with the needed quantity; no (or an unknown) selection is not
sufficient. -/
def sufficientInfo (batches : List InventoryBatch) (selectedBatchId : Option Nat)
    (quantityNeeded : ℤ) : Bool :=
  match selectedBatchId with
  | none => false
  | some sid =>
    match batches.find? (·.batch_id == sid) with
    | some b => quantityNeeded ≤ b.quantity_current
    | none => false

/-- C6: in manual batch selection, a batch option is disabled exactly when
its current quantity is strictly below the needed quantity, and the
sufficiency indicator is positive exactly when the selected batch's current
quantity is at least the needed quantity. -/
theorem ingredientBatchSelector_spec (batches : List InventoryBatch)
    (quantityNeeded : ℤ) (b : InventoryBatch) (sid : Nat)
    (hfind : batches.find? (·.batch_id == sid) = some b) :
    (batchOptionDisabled b quantityNeeded = true ↔
      b.quantity_current < quantityNeeded) ∧
    (sufficientInfo batches (some sid) quantityNeeded = true ↔
      quantityNeeded ≤ b.quantity_current) := by
  constructor
  · simp [batchOptionDisabled]
  · simp [sufficientInfo, hfind]

theorem ingredientBatchSelector_spec_witness :
    ([fifoExB1].find? (·.batch_id == 1) = some fifoExB1) ∧
    ((batchOptionDisabled fifoExB1 4 = true ↔ fifoExB1.quantity_current < 4) ∧
     (sufficientInfo [fifoExB1] (some 1) 4 = true ↔ 4 ≤ fifoExB1.quantity_current)) :=
  ⟨by decide, ingredientBatchSelector_spec [fifoExB1] 4 fifoExB1 1 (by decide)⟩

/-- Outcome of a form submit handler: a validation error message, a silent
early return, or an issued POST request carrying the item id and quantity. -/
inductive SubmitOutcome where
  | validationFailed (msg : String)
  | silentReturn
  | post (item_id : Nat) (quantity : ℤ)
deriving DecidableEq, Repr

/-- State of the Chef Mode production form
(frontend/src/pages/ProductionPage.tsx): the selected item, and the numeric
value of the quantity input (none when the field is empty; a number input
yields either the empty string or a parseable number). -/
structure ProduceFormState where
  selectedItem : Option Nat
  quantity : Option ℤ
deriving DecidableEq, Repr

/-- handleSubmit of the production form (ProductionPage.tsx lines 133 to
144): a missing item or an empty or non-positive quantity sets a validation
error and returns without posting; otherwise POST /production/record is
issued with the selected item and quantity.  The optional manual-batches
map hangs off the same request and is independent of this guard logic. -/
def produceHandleSubmit (s : ProduceFormState) : SubmitOutcome :=
  match s.selectedItem with
  | none => .validationFailed "Please select an item to produce."
  | some iid =>
    match s.quantity with
    | none => .validationFailed "Please enter a valid quantity."
    | some q =>
      if q ≤ 0 then .validationFailed "Please enter a valid quantity."
      else .post iid q

/-- C7: submitting the production form with no selected item, an empty
quantity, or a non-positive quantity sets a validation error and never
posts; a POST is issued only with a selected item and a positive
quantity. -/
theorem produceHandleSubmit_spec (s : ProduceFormState) :
    ((s.selectedItem = none ∨ s.quantity = none ∨
        ∃ q, s.quantity = some q ∧ q ≤ 0) →
      ∃ msg, produceHandleSubmit s = .validationFailed msg) ∧
    (∀ iid q, produceHandleSubmit s = .post iid q →
      s.selectedItem = some iid ∧ s.quantity = some q ∧ 0 < q) := by
  constructor
  · intro hcase
    rcases hsel : s.selectedItem with _ | iid
    · exact ⟨"Please select an item to produce.", by simp [produceHandleSubmit, hsel]⟩
    · rcases hq : s.quantity with _ | q
      · exact ⟨"Please enter a valid quantity.", by simp [produceHandleSubmit, hsel, hq]⟩
      · rcases hcase with hbad | hbad | ⟨q', hq', hle⟩
        · rw [hsel] at hbad; cases hbad
        · rw [hq] at hbad; cases hbad
        · rw [hq] at hq'
          have hqq : q = q' := Option.some.inj hq'
          refine ⟨"Please enter a valid quantity.", ?_⟩
          simp only [produceHandleSubmit, hsel, hq]
          rw [if_pos (by omega)]
  · intro iid q h
    rcases hsel : s.selectedItem with _ | iid'
    · simp [produceHandleSubmit, hsel] at h
    · rcases hq : s.quantity with _ | q'
      · simp [produceHandleSubmit, hsel, hq] at h
      · simp only [produceHandleSubmit, hsel, hq] at h
        by_cases hle : q' ≤ 0
        · rw [if_pos hle] at h; cases h
        · rw [if_neg hle] at h
          cases h
          exact ⟨rfl, rfl, by omega⟩

theorem produceHandleSubmit_spec_witness :
    ((ProduceFormState.mk (some 5) (some 0)).selectedItem = none ∨
      (ProduceFormState.mk (some 5) (some 0)).quantity = none ∨
      ∃ q, (ProduceFormState.mk (some 5) (some 0)).quantity = some q ∧ q ≤ 0) ∧
    (∃ msg, produceHandleSubmit (ProduceFormState.mk (some 5) (some 0)) =
      .validationFailed msg) ∧
    (produceHandleSubmit (ProduceFormState.mk (some 5) (some 3)) = .post 5 3 ∧
      0 < (3 : ℤ)) :=
  ⟨Or.inr (Or.inr ⟨0, rfl, by decide⟩),
   (produceHandleSubmit_spec (ProduceFormState.mk (some 5) (some 0))).1
     (Or.inr (Or.inr ⟨0, rfl, by decide⟩)),
   by decide,
   by decide⟩

/-- getStockForItem of the DepleteForm (frontend ProductionPage.tsx lines
307 to 310): find the summary row of the item (item_id, total_stock) and
return its total stock, zero when absent. -/
def getStockForItem (summaryItems : List (Nat × ℤ)) (itemId : Nat) : ℤ :=
  match summaryItems.find? (·.1 == itemId) with
  | some s => s.2
  | none => 0

/-- State of the DepleteForm: the selected item and the numeric value of the
quantity input (none when the field is empty). -/
structure DepleteFormState where
  selectedItem : Option Nat
  quantity : Option ℤ
deriving DecidableEq, Repr

/-- enteredQty of the DepleteForm (line 313): the numeric value of the
quantity input, with the empty field collapsed to zero. -/
def depleteEnteredQty (s : DepleteFormState) : ℤ := s.quantity.getD 0

/-- currentStock of the DepleteForm (line 312): the selected item's total
stock from the summary, zero when nothing is selected. -/
def depleteCurrentStock (summaryItems : List (Nat × ℤ)) (s : DepleteFormState) : ℤ :=
  match s.selectedItem with
  | some iid => getStockForItem summaryItems iid
  | none => 0

/-- isInsufficientStock of the DepleteForm (line 314): an item is selected,
the entered quantity is positive, and it exceeds the current stock. -/
def isInsufficientStock (summaryItems : List (Nat × ℤ)) (s : DepleteFormState) : Bool :=
  s.selectedItem.isSome && (0 < depleteEnteredQty s : Bool) &&
    (depleteCurrentStock summaryItems s < depleteEnteredQty s : Bool)

/-- handleSubmit of the DepleteForm (lines 334 to 348): validation errors
for a missing item or an empty or non-positive quantity, a silent early
return while the insufficiency condition holds, otherwise the
POST /inventory/deplete request. -/
def depleteHandleSubmit (summaryItems : List (Nat × ℤ)) (s : DepleteFormState) :
    SubmitOutcome :=
  match s.selectedItem with
  | none => .validationFailed "Please select an item."
  | some iid =>
    match s.quantity with
    | none => .validationFailed "Please enter a valid quantity."
    | some q =>
      if q ≤ 0 then .validationFailed "Please enter a valid quantity."
      else if isInsufficientStock summaryItems s then .silentReturn
      else .post iid q

/-- The disabled attribute of the DepleteForm submit button (line 418):
disabled while the request is pending or the insufficiency condition
holds. -/
def depleteSubmitDisabled (summaryItems : List (Nat × ℤ)) (s : DepleteFormState)
    (isPending : Bool) : Bool :=
  isPending || isInsufficientStock summaryItems s

/-- C8: with an item selected and an entered quantity strictly greater than
that item's total current stock, the depletion form never issues the POST
(the handler errors out or returns early), and, the stock being
non-negative, the submit button is disabled while the condition holds. -/
theorem depleteForm_insufficient_spec (summaryItems : List (Nat × ℤ))
    (sid : Nat) (q : ℤ)
    (hgt : getStockForItem summaryItems sid < q) :
    (∀ iid amt, depleteHandleSubmit summaryItems (DepleteFormState.mk (some sid) (some q))
      ≠ .post iid amt) ∧
    (0 ≤ getStockForItem summaryItems sid →
      depleteSubmitDisabled summaryItems (DepleteFormState.mk (some sid) (some q)) false
        = true) := by
  constructor
  · intro iid amt h
    simp only [depleteHandleSubmit] at h
    by_cases hle : q ≤ 0
    · rw [if_pos hle] at h
      cases h
    · rw [if_neg hle] at h
      rw [if_pos (show isInsufficientStock summaryItems
          (DepleteFormState.mk (some sid) (some q)) = true by
        simp [isInsufficientStock, depleteEnteredQty, depleteCurrentStock]
        omega)] at h
      cases h
  · intro hnn
    have hq : 0 < q := by omega
    simp [depleteSubmitDisabled, isInsufficientStock, depleteEnteredQty,
      depleteCurrentStock]
    omega

theorem depleteForm_insufficient_spec_witness :
    getStockForItem [(7, 4)] 7 < 9 ∧
    ((∀ iid amt, depleteHandleSubmit [(7, 4)] (DepleteFormState.mk (some 7) (some 9))
        ≠ .post iid amt) ∧
     (0 ≤ getStockForItem [(7, 4)] 7 →
       depleteSubmitDisabled [(7, 4)] (DepleteFormState.mk (some 7) (some 9)) false
         = true)) :=
  ⟨by decide, depleteForm_insufficient_spec [(7, 4)] 7 9 (by decide)⟩

/-- A row of the frontend-web InventoryPage batch table, restricted to the
fields the waste flow reads (src/unnamed/part_006 lines 8 to 18). -/
structure BatchRow where
  batch_id : Nat
  quantity_current : ℤ
deriving DecidableEq, Repr

/-- The body of the POST /inventory/waste request. -/
structure WastePayload where
  batch_id : Nat
  quantity : ℤ
  reason : String
deriving DecidableEq, Repr

/-- handleWasteSubmit of the frontend-web batch-table InventoryPage
(src/unnamed/part_006 lines 96 to 108): nothing is sent while no batch is
staged; otherwise the waste request is sent with quantity equal to the
staged batch's quantity_current.  The modal offers only a reason selector,
no quantity input. -/
def handleWasteSubmit (wasteBatch : Option BatchRow) (reason : String) :
    Option WastePayload :=
  match wasteBatch with
  | none => none
  | some b =>
    some { batch_id := b.batch_id, quantity := b.quantity_current, reason := reason }

/-- C9: every waste request the batch-table flow issues zeroes out a whole
batch: the payload's quantity is exactly the staged batch's
quantity_current, and no request is issued without a staged batch. -/
theorem handleWasteSubmit_spec (wasteBatch : Option BatchRow) (reason : String) :
    (∀ payload, handleWasteSubmit wasteBatch reason = some payload →
      ∃ b, wasteBatch = some b ∧ payload.quantity = b.quantity_current ∧
        payload.batch_id = b.batch_id ∧ payload.reason = reason) ∧
    (handleWasteSubmit none reason = none) := by
  constructor
  · intro payload h
    rcases hwb : wasteBatch with _ | b
    · rw [hwb] at h
      cases h
    · rw [hwb] at h
      simp only [handleWasteSubmit] at h
      exact ⟨b, rfl, by rw [← Option.some.inj h], by rw [← Option.some.inj h],
        by rw [← Option.some.inj h]⟩
  · rfl

theorem handleWasteSubmit_spec_witness :
    handleWasteSubmit (some (BatchRow.mk 4 7)) "Spoiled" =
      some (WastePayload.mk 4 7 "Spoiled") ∧
    ∃ b, some (BatchRow.mk 4 7) = some b ∧
      (WastePayload.mk 4 7 "Spoiled").quantity = b.quantity_current ∧
      (WastePayload.mk 4 7 "Spoiled").batch_id = b.batch_id ∧
      (WastePayload.mk 4 7 "Spoiled").reason = "Spoiled" :=
  ⟨by decide,
    (handleWasteSubmit_spec (some (BatchRow.mk 4 7)) "Spoiled").1
      (WastePayload.mk 4 7 "Spoiled") (by decide)⟩

/-- A line-item row of the ManualInvoiceForm
(src/frontend-web/src/features/invoices/ManualInvoiceForm.tsx lines 7 to
11): each field holds the numeric value of its input, none when the field
is the empty string (the JS truthiness filter on those string fields holds
exactly for non-empty strings). -/
structure LineItem where
  item_id : Option Nat
  quantity : Option ℤ
  unit_cost : Option ℤ
deriving DecidableEq, Repr

/-- A line-item row is complete when all three fields are non-empty
(ManualInvoiceForm.tsx line 27). -/
def completeLine (l : LineItem) : Bool :=
  l.item_id.isSome && l.quantity.isSome && l.unit_cost.isSome

/-- The items of the created invoice request (ManualInvoiceForm.tsx lines
26 to 32): the complete rows, with their fields parsed to numbers. -/
def invoiceItems (lines : List LineItem) : List (Nat × ℤ × ℤ) :=
  (lines.filter completeLine).map fun l =>
    (l.item_id.getD 0, l.quantity.getD 0, l.unit_cost.getD 0)

/-- total_cost of the created invoice request (ManualInvoiceForm.tsx lines
33 to 36): the reduce over the included items of quantity times unit
cost. -/
def invoiceTotalCost (lines : List LineItem) : ℤ :=
  (invoiceItems lines).foldl (fun sum i => sum + i.2.1 * i.2.2) 0

/-- Modelled from the spec: the item options the line-item selector offers
are the result of the useItems Raw query (ManualInvoiceForm.tsx line 17);
the type filter itself runs in the external items API, which the spec
scopes out as the catalog collaborator, so it is modelled as a filter of
the catalog by type. -/
def rawItemsOffered (catalog : List Item) : List Item :=
  catalog.filter (·.type == .Raw)

/-- C10: the created invoice request contains exactly the rows whose three
fields are all non-empty (incomplete rows are dropped), its total_cost is
the sum over those rows of quantity times unit_cost, and the item selector
offers only items of type Raw. -/
theorem manualInvoiceForm_spec (lines : List LineItem) (catalog : List Item) :
    (∀ t ∈ invoiceItems lines, ∃ l ∈ lines, completeLine l = true ∧
      t = (l.item_id.getD 0, l.quantity.getD 0, l.unit_cost.getD 0)) ∧
    (∀ l ∈ lines, completeLine l = true →
      (l.item_id.getD 0, l.quantity.getD 0, l.unit_cost.getD 0) ∈ invoiceItems lines) ∧
    invoiceTotalCost lines =
      ((lines.filter completeLine).map
        (fun l => l.quantity.getD 0 * l.unit_cost.getD 0)).sum ∧
    (∀ it ∈ rawItemsOffered catalog, it.type = .Raw) := by
  refine ⟨?_, ?_, ?_, ?_⟩
  · intro t ht
    obtain ⟨l, hl, rfl⟩ := List.mem_map.mp ht
    obtain ⟨hmem, hcomp⟩ := List.mem_filter.mp hl
    exact ⟨l, hmem, hcomp, rfl⟩
  · intro l hl hcomp
    exact List.mem_map_of_mem _ (List.mem_filter.mpr ⟨hl, hcomp⟩)
  · unfold invoiceTotalCost invoiceItems
    rw [List.foldl_map, List.sum_eq_foldl, List.foldl_map]
  · intro it hit
    have := (List.mem_filter.mp hit).2
    simpa using this

theorem manualInvoiceForm_spec_witness :
    ((LineItem.mk (some 4) (some 2) (some 3)) ∈
        [LineItem.mk (some 4) (some 2) (some 3), LineItem.mk none (some 1) (some 1)] ∧
      completeLine (LineItem.mk (some 4) (some 2) (some 3)) = true) ∧
    ((4, 2, 3) : Nat × ℤ × ℤ) ∈ invoiceItems
      [LineItem.mk (some 4) (some 2) (some 3), LineItem.mk none (some 1) (some 1)] ∧
    invoiceTotalCost
      [LineItem.mk (some 4) (some 2) (some 3), LineItem.mk none (some 1) (some 1)] = 6 :=
  ⟨⟨by decide, by decide⟩,
    (manualInvoiceForm_spec
      [LineItem.mk (some 4) (some 2) (some 3), LineItem.mk none (some 1) (some 1)]
      []).2.1 (LineItem.mk (some 4) (some 2) (some 3)) (by decide) (by decide),
    by decide⟩

end Yaba
